import Mathlib

/-!
Verification development for the availability core of a campus
resource-booking application.

The repository stores booking instants as UTC datetimes and evaluates weekly
operating schedules in the local time zone of the campus.  In this embedding
an instant is a number of minutes since a reference Monday 00:00; weekdays are
numbered 0 = monday .. 6 = sunday, and a time of day is the number of minutes
after midnight.  Local time is obtained from UTC by adding an explicit offset
parameter where the source relies on a configured time zone.

Sources embedded here:
- `src/services/concierge_service.py`: `answer` input validation, the
  availability decision of `_check_availability_question`, and
  `_find_next_available_slot`.
- `src/controllers/resource_controller.py`: `next_available_window`.
- The module `src/utils/availability.py` (functions `is_time_in_schedule`,
  `parse_time_string`, `get_next_available_slot`) is imported by the service
  but is absent from the sources; those functions are modelled from the
  specification, as marked in their doc comments.
-/

namespace CampusHub

/-- One operating window of a weekly schedule, in minutes after local
midnight.  Corresponds to a record with keys start and end in the persisted
schedule; the source field named end is a reserved word in Lean. -/
structure TimeWindow where
  start : Nat
  stop : Nat
  deriving Repr, DecidableEq

/-- A parsed weekly schedule: an association of weekday index
(0 = monday .. 6 = sunday) to the windows open on that day.  A day that is
absent from the list is closed all day. -/
abbrev Schedule := List (Nat × List TimeWindow)

/-- Weekday index of an instant (minutes since a reference Monday 00:00). -/
def weekday (t : Nat) : Nat := t / 1440 % 7

/-- Time of day, in minutes after midnight, of an instant. -/
def timeOfDay (t : Nat) : Nat := t % 1440

/-- Windows of a given weekday; an absent day yields the empty list. -/
def lookupDay (sched : Schedule) (d : Nat) : List TimeWindow :=
  match sched.find? (fun p => p.1 == d) with
  | some p => p.2
  | none => []

/-- Half-open containment of a time of day in one window:
start is inside, end is outside. -/
def timeInWindow (tod : Nat) (w : TimeWindow) : Bool :=
  decide (w.start ≤ tod ∧ tod < w.stop)

/-- Modelled from the spec: `is_time_in_schedule` from the absent module
`src/utils/availability.py`.  The instant (already expressed in local time)
is covered when its weekday has at least one window `[start, end)` containing
its time of day. -/
def is_time_in_schedule (t_local : Nat) (sched : Schedule) : Bool :=
  (lookupDay sched (weekday t_local)).any (timeInWindow (timeOfDay t_local))

/-- Split a character list on the colon character. -/
def splitColon : List Char → List (List Char)
  | [] => [[]]
  | c :: rest =>
    let r := splitColon rest
    if c = ':' then [] :: r
    else
      match r with
      | [] => [[c]]
      | g :: gs => (c :: g) :: gs

/-- Parse a nonempty list of decimal digit characters to a number, none on
any non-digit or on the empty list. -/
def natFromDigits : List Char → Option Nat
  | [] => none
  | cs =>
    cs.foldl (fun acc c =>
      match acc with
      | none => none
      | some n => if c.isDigit then some (n * 10 + (c.toNat - 48)) else none) (some 0)

/-- Modelled from the spec: `parse_time_string` from the absent module
`src/utils/availability.py`.  Parses an HH:MM 24-hour string to minutes
after midnight, returning none on malformed input. -/
def parse_time_string (s : String) : Option Nat :=
  match splitColon s.data with
  | [h, m] =>
    match natFromDigits h, natFromDigits m with
    | some hh, some mm => if hh < 24 ∧ mm < 60 then some (hh * 60 + mm) else none
    | _, _ => none
  | _ => none

/-- Coverage of an instant by an optional schedule, following the spec of
`isInstantCovered`: an absent schedule restricts nothing, so every instant
is covered. -/
def scheduleCovers (schedule : Option Schedule) (t_local : Nat) : Bool :=
  match schedule with
  | none => true
  | some sched => is_time_in_schedule t_local sched

/-- Booking lifecycle status, from `src/models/models.py`. -/
inductive BookingStatus where
  | pending
  | approved
  | rejected
  | cancelled
  | completed
  deriving Repr, DecidableEq, BEq

/-- The fields of a booking record that the availability core reads:
UTC start and end instants and the lifecycle status. -/
structure Booking where
  start_datetime : Nat
  end_datetime : Nat
  status : BookingStatus
  deriving Repr, DecidableEq

/-- The booking-constraint fields of a resource that the slot search reads,
from `src/models/models.py` (each may be absent). -/
structure Resource where
  min_booking_minutes : Option Nat
  buffer_minutes : Option Nat
  min_lead_time_hours : Option Nat
  booking_increment_minutes : Option Nat
  deriving Repr, DecidableEq

/-- Result of the availability-now decision in
`_check_availability_question` (`src/services/concierge_service.py`,
lines 587-612): available, blocked by operating hours, or blocked by a
booking whose end instant is reported. -/
inductive AvailabilityStatus where
  | available
  | outsideOperatingHours
  | bookedUntil (endTime : Nat)
  deriving Repr, DecidableEq

/-- The active-booking filter of `_check_availability_question`
(lines 573-582): keep bookings whose status is pending or approved and whose
end lies strictly after the current UTC instant. -/
def filterActiveBookings (bookings : List Booking) (now_utc : Nat) : List Booking :=
  bookings.filter (fun b =>
    decide ((b.status = BookingStatus.pending ∨ b.status = BookingStatus.approved)
      ∧ now_utc < b.end_datetime))

/-- The booking-conflict loop of `_check_availability_question`
(lines 598-612): report the first booking in list order that contains the
UTC instant, half-open on the right. -/
def scanBookings (active : List Booking) (now_utc : Nat) : AvailabilityStatus :=
  match active with
  | [] => AvailabilityStatus.available
  | b :: rest =>
    if b.start_datetime ≤ now_utc ∧ now_utc < b.end_datetime then
      AvailabilityStatus.bookedUntil b.end_datetime
    else scanBookings rest now_utc

/-- The availability-now decision of `_check_availability_question`
(lines 587-612): when a schedule is present the local instant must be inside
operating hours, and only then are active bookings checked against the UTC
instant.  An absent schedule skips the operating-hours check; the source
guard `if schedule:` distinguishes the parsed schedule from None, since
`parse_schedule` degrades absent or empty input to None per the spec. -/
def isAvailableNow (schedule : Option Schedule) (active : List Booking)
    (now_utc now_local : Nat) : AvailabilityStatus :=
  match schedule with
  | some sched =>
    if ¬ is_time_in_schedule now_local sched then AvailabilityStatus.outsideOperatingHours
    else scanBookings active now_utc
  | none => scanBookings active now_utc

/-- Round an instant up to the next multiple of a positive increment
(idempotent on aligned instants). -/
def roundUpTo (t inc : Nat) : Nat := (t + inc - 1) / inc * inc

/-- Insertion into a list of blocked intervals kept sorted by start. -/
def insertByStart (p : Nat × Nat) : List (Nat × Nat) → List (Nat × Nat)
  | [] => [p]
  | q :: rest => if p.1 ≤ q.1 then p :: q :: rest else q :: insertByStart p rest

/-- Sort blocked intervals by ascending start. -/
def sortByStart : List (Nat × Nat) → List (Nat × Nat)
  | [] => []
  | p :: rest => insertByStart p (sortByStart rest)

/-- Minimum of a list of instants, none when the list is empty. -/
def minInstant : List Nat → Option Nat
  | [] => none
  | x :: xs =>
    match minInstant xs with
    | none => some x
    | some y => some (Nat.min x y)

/-- The increment-aligned sub-points of the candidate interval
`[c, c + duration)`, stepping by the increment. -/
def alignedPoints (c duration inc : Nat) : List Nat :=
  (List.range ((duration + inc - 1) / inc)).map (fun k => c + k * inc)

/-- Schedule fit of a candidate interval: every increment-aligned sub-point
of `[c, c + duration)` must be covered on its weekday, after converting the
UTC point to local time by the offset. -/
def intervalFits (sched : Schedule) (c duration inc tz : Nat) : Bool :=
  (alignedPoints c duration inc).all (fun p => is_time_in_schedule (p + tz) sched)

/-- First buffered blocked interval overlapping the half-open candidate
interval `[c, c + duration)`. -/
def firstOverlap (blocked : List (Nat × Nat)) (c duration : Nat) : Option (Nat × Nat) :=
  blocked.find? (fun blk => decide (blk.1 < c + duration ∧ c < blk.2))

/-- The earliest window-opening instant strictly after a local instant,
looking at most the given number of days ahead.  Used to jump over closed
hours instead of stepping one increment at a time. -/
def nextWindowOpen (sched : Schedule) (t_local daysAhead : Nat) : Option Nat :=
  let cands := (List.range (daysAhead + 1)).flatMap (fun k =>
    let dayIndex := t_local / 1440 + k
    (lookupDay sched (dayIndex % 7)).map (fun w => dayIndex * 1440 + w.start))
  minInstant (cands.filter (fun t => decide (t_local < t)))

/-- The bounded forward scan of the slot search (spec section 4.2, step 4).
The candidate advances by jumps: to the next window opening when the
schedule does not fit, and past the blocking buffered interval on conflict.
Fuel bounds the recursion; every step strictly increases the candidate, so
fuel exceeding the horizon length is never exhausted before the bound check
returns. -/
def slotScan (sched : Schedule) (blocked : List (Nat × Nat))
    (duration inc bound tz daysAhead : Nat) : Nat → Nat → Option Nat
  | 0, _ => none
  | fuel + 1, c =>
    if bound < c then none
    else if intervalFits sched c duration inc tz then
      match firstOverlap blocked c duration with
      | some blk => slotScan sched blocked duration inc bound tz daysAhead fuel blk.2
      | none => some (roundUpTo c inc)
    else
      match nextWindowOpen sched (c + tz) daysAhead with
      | none => none
      | some t_local => slotScan sched blocked duration inc bound tz daysAhead fuel (t_local - tz)

/-- Modelled from the spec: `get_next_available_slot` from the absent module
`src/utils/availability.py`, following spec section 4.2.  An absent schedule
yields none; a zero increment is replaced by 30; the earliest candidate is
the start pushed by the lead time and rounded up to the increment; bookings
are expanded by the buffer on both sides and sorted by start; the scan is
bounded by the horizon in days.  The source converts UTC to local time via
the configured campus time zone; here the conversion is the explicit offset
parameter `tz` (minutes added to UTC). -/
def get_next_available_slot (schedule : Option Schedule) (existing_bookings : List Booking)
    (duration_minutes buffer_minutes start_from lead_time_hours
      max_days_ahead increment_minutes tz : Nat) : Option Nat :=
  match schedule with
  | none => none
  | some sched =>
    let inc := if increment_minutes = 0 then 30 else increment_minutes
    let earliest := roundUpTo (start_from + lead_time_hours * 60) inc
    let bound := start_from + max_days_ahead * 1440
    let blocked := sortByStart (existing_bookings.map
      (fun b => (b.start_datetime - buffer_minutes, b.end_datetime + buffer_minutes)))
    slotScan sched blocked duration_minutes inc bound tz (max_days_ahead + 2) (bound + 2) earliest

/-- Duration used by `_find_next_available_slot` (line 659): the minimum
booking duration of the resource, with 60 substituted when the field is
absent or zero. -/
def durationOf (r : Resource) : Nat :=
  match r.min_booking_minutes with
  | none => 60
  | some 0 => 60
  | some m => m

/-- Buffer used by `_find_next_available_slot` (line 660), defaulting to 0. -/
def bufferOf (r : Resource) : Nat := r.buffer_minutes.getD 0

/-- Lead time in hours used by `_find_next_available_slot` (line 661),
defaulting to 0. -/
def leadTimeOf (r : Resource) : Nat := r.min_lead_time_hours.getD 0

/-- Increment used by `_find_next_available_slot` (line 662): the booking
increment of the resource, with 30 substituted when the field is absent or
zero. -/
def incrementOf (r : Resource) : Nat :=
  match r.booking_increment_minutes with
  | none => 30
  | some 0 => 30
  | some m => m

/-- `_find_next_available_slot` from `src/services/concierge_service.py`
(lines 646-691): an absent schedule yields none; otherwise the bookings are
restricted to those ending after the UTC instant and the slot search is
invoked with the defaulted constraint parameters of the resource, a 7-day
horizon, and the UTC instant as the search start. -/
def findNextAvailableSlot (r : Resource) (active_bookings : List Booking)
    (schedule : Option Schedule) (now_utc tz : Nat) : Option Nat :=
  match schedule with
  | none => none
  | some sched =>
    let booking_list := active_bookings.filter (fun b => decide (now_utc < b.end_datetime))
    get_next_available_slot (some sched) booking_list (durationOf r) (bufferOf r)
      now_utc (leadTimeOf r) 7 (incrementOf r) tz

/-- The availability portion of `_check_availability_question` taken as a
whole: the raw bookings of the resource are filtered to the active ones once
(lines 573-582), and that filtered list feeds both the availability-now
decision and the next-slot search (line 638). -/
def availabilityPipeline (schedule : Option Schedule) (bookings : List Booking)
    (now_utc now_local : Nat) (r : Resource) (tz : Nat) :
    AvailabilityStatus × Option Nat :=
  let active := filterActiveBookings bookings now_utc
  (isAvailableNow schedule active now_utc now_local,
    findNextAvailableSlot r active schedule now_utc tz)

/-- Drop whitespace characters from both ends of a character list. -/
def stripChars (cs : List Char) : List Char :=
  ((cs.dropWhile Char.isWhitespace).reverse.dropWhile Char.isWhitespace).reverse

/-- Stripping of surrounding whitespace, the Python `str.strip` applied by
`answer`, expressed over the character content of the string. -/
def pyStrip (s : String) : String := ⟨stripChars s.data⟩

/-- Input validation of `ConciergeService.answer`
(`src/services/concierge_service.py`, lines 74-82): None becomes the empty
string, surrounding whitespace is stripped, the empty result and results
longer than 1000 characters raise ValueError, and the stripped question is
the one processed further. -/
def answerValidate (question : Option String) : Except String String :=
  let cleaned := pyStrip (question.getD "")
  if cleaned = "" then Except.error "Question must not be empty."
  else if cleaned.length > 1000 then Except.error "Question must be 1000 characters or fewer."
  else Except.ok cleaned

/-- The loop body of `next_available_window`
(`src/controllers/resource_controller.py`, lines 163-172), with the running
window start as accumulator.  Intervals ending at or before the window start
are skipped; an interval containing the window start pushes it to that
interval end; an interval starting strictly later closes the free window. -/
def nawGo : Nat → List (Nat × Nat) → Nat × Option Nat
  | ws, [] => (ws, none)
  | ws, (s, e) :: rest =>
    if e ≤ ws then nawGo ws rest
    else if s ≤ ws ∧ ws < e then nawGo e rest
    else if ws < s then (ws, some s)
    else nawGo ws rest

/-- `next_available_window` from `src/controllers/resource_controller.py`
(lines 159-172): the next free window from now given the booked intervals of
a resource; an empty interval list yields the window from now onward. -/
def next_available_window (now : Nat) (intervals : List (Nat × Nat)) : Nat × Option Nat :=
  match intervals with
  | [] => (now, none)
  | _ :: _ => nawGo now intervals

/-! Concrete fixtures used by witnesses and counterexamples. -/

/-- Monday open 09:00 to 17:00, all other days closed. -/
def schedMonday0917 : Schedule := [(0, [⟨540, 1020⟩])]

/-- Monday open the whole day, all other days closed. -/
def schedMondayAll : Schedule := [(0, [⟨0, 1440⟩])]

/-- A schedule whose single Monday window is degenerate (start = end). -/
def schedDegenerate : Schedule := [(0, [⟨540, 540⟩])]

/-- An approved booking over the UTC interval `[50, 150)`. -/
def bEarly : Booking :=
  { start_datetime := 50, end_datetime := 150, status := BookingStatus.approved }

/-- An approved booking over the UTC interval `[90, 200)`. -/
def bLate : Booking :=
  { start_datetime := 90, end_datetime := 200, status := BookingStatus.approved }

/-- A cancelled booking over the UTC interval `[0, 200)`. -/
def bCancelled : Booking :=
  { start_datetime := 0, end_datetime := 200, status := BookingStatus.cancelled }

/-- A resource with every booking constraint left absent. -/
def rDefault : Resource :=
  { min_booking_minutes := none, buffer_minutes := none,
    min_lead_time_hours := none, booking_increment_minutes := none }

/-- A resource whose booking increment is explicitly zero. -/
def rIncZero : Resource :=
  { min_booking_minutes := none, buffer_minutes := none,
    min_lead_time_hours := none, booking_increment_minutes := some 0 }

/-- A resource whose minimum booking duration is explicitly zero. -/
def rMinZero : Resource :=
  { min_booking_minutes := some 0, buffer_minutes := none,
    min_lead_time_hours := none, booking_increment_minutes := none }

/-- A resource whose minimum booking duration is 90 minutes. -/
def rMin90 : Resource :=
  { min_booking_minutes := some 90, buffer_minutes := none,
    min_lead_time_hours := none, booking_increment_minutes := none }

/-! Helper lemmas about the booking-conflict scan. -/

/-- The booking scan never reports the operating-hours reason. -/
lemma scanBookings_ne_outside (active : List Booking) (now : Nat) :
    scanBookings active now ≠ AvailabilityStatus.outsideOperatingHours := by
  induction active with
  | nil => simp [scanBookings]
  | cons b rest ih =>
    by_cases h : b.start_datetime ≤ now ∧ now < b.end_datetime
    · simp [scanBookings, h]
    · simpa [scanBookings, h] using ih

/-- The booking scan reports available exactly when no listed booking
contains the instant. -/
lemma scanBookings_available_iff (active : List Booking) (now : Nat) :
    scanBookings active now = AvailabilityStatus.available ↔
      ∀ b ∈ active, ¬(b.start_datetime ≤ now ∧ now < b.end_datetime) := by
  induction active with
  | nil => simp [scanBookings]
  | cons b rest ih =>
    by_cases h : b.start_datetime ≤ now ∧ now < b.end_datetime
    · simp [scanBookings, h]
    · rw [scanBookings, if_neg h, ih]
      simp [List.forall_mem_cons, h]
      omega

/-- A reported blocking end comes from a listed booking that contains the
instant. -/
lemma scanBookings_bookedUntil (active : List Booking) (now e : Nat)
    (h : scanBookings active now = AvailabilityStatus.bookedUntil e) :
    ∃ b ∈ active, (b.start_datetime ≤ now ∧ now < b.end_datetime) ∧ b.end_datetime = e := by
  induction active with
  | nil => simp [scanBookings] at h
  | cons b rest ih =>
    by_cases hb : b.start_datetime ≤ now ∧ now < b.end_datetime
    · rw [scanBookings, if_pos hb] at h
      cases h
      exact ⟨b, List.mem_cons_self _ _, hb, rfl⟩
    · rw [scanBookings, if_neg hb] at h
      obtain ⟨b2, hm, hP, he⟩ := ih h
      exact ⟨b2, List.mem_cons_of_mem _ hm, hP, he⟩

/-- If some listed booking contains the instant, the scan reports a blocking
end. -/
lemma scanBookings_blocked (active : List Booking) (now : Nat)
    (h : ∃ b ∈ active, b.start_datetime ≤ now ∧ now < b.end_datetime) :
    ∃ e, scanBookings active now = AvailabilityStatus.bookedUntil e := by
  induction active with
  | nil => simp at h
  | cons b rest ih =>
    by_cases hb : b.start_datetime ≤ now ∧ now < b.end_datetime
    · exact ⟨b.end_datetime, by rw [scanBookings, if_pos hb]⟩
    · obtain ⟨b2, hm, hP⟩ := h
      rcases List.mem_cons.mp hm with rfl | hm
      · exact absurd hP hb
      · obtain ⟨e, he⟩ := ih ⟨b2, hm, hP⟩
        exact ⟨e, by rw [scanBookings, if_neg hb]; exact he⟩

/-- On a list sorted by ascending start, the scan reports a blocking booking
of minimal start time among all blocking bookings. -/
lemma scanBookings_sorted_first (active : List Booking) (now e : Nat)
    (hs : active.Pairwise (fun a b => a.start_datetime ≤ b.start_datetime))
    (h : scanBookings active now = AvailabilityStatus.bookedUntil e) :
    ∃ b ∈ active, (b.start_datetime ≤ now ∧ now < b.end_datetime) ∧ b.end_datetime = e ∧
      ∀ b2 ∈ active, (b2.start_datetime ≤ now ∧ now < b2.end_datetime) →
        b.start_datetime ≤ b2.start_datetime := by
  induction active with
  | nil => simp [scanBookings] at h
  | cons b rest ih =>
    rw [List.pairwise_cons] at hs
    obtain ⟨hhead, hrest⟩ := hs
    by_cases hb : b.start_datetime ≤ now ∧ now < b.end_datetime
    · rw [scanBookings, if_pos hb] at h
      cases h
      refine ⟨b, List.mem_cons_self _ _, hb, rfl, ?_⟩
      intro b2 hm _
      rcases List.mem_cons.mp hm with rfl | hm
      · exact Nat.le_refl _
      · exact hhead b2 hm
    · rw [scanBookings, if_neg hb] at h
      obtain ⟨b2, hm, hP, he, hmin⟩ := ih hrest h
      refine ⟨b2, List.mem_cons_of_mem _ hm, hP, he, ?_⟩
      intro b3 hm3 hP3
      rcases List.mem_cons.mp hm3 with rfl | hm3
      · exact absurd hP3 hb
      · exact hmin b3 hm3 hP3

/-- The availability-now decision, rephrased through schedule coverage. -/
lemma isAvailableNow_eq (schedule : Option Schedule) (active : List Booking)
    (now_utc now_local : Nat) :
    isAvailableNow schedule active now_utc now_local =
      if scheduleCovers schedule now_local then scanBookings active now_utc
      else AvailabilityStatus.outsideOperatingHours := by
  cases schedule with
  | none => simp [isAvailableNow, scheduleCovers]
  | some sched =>
    by_cases h : is_time_in_schedule now_local sched
    · simp [isAvailableNow, scheduleCovers, h]
    · simp [isAvailableNow, scheduleCovers, h]

/-! Claim theorems. -/

/-- C1: the availability-now check reports the operating-hours reason exactly
when the schedule does not cover the local instant; given coverage it reports
a blocking booking exactly when some active booking satisfies
start ≤ nowUtc < end, reporting that booking's end, and otherwise reports
available.  The schedule is consulted at the local instant and bookings at
the UTC instant. -/
theorem availability_now_characterization (schedule : Option Schedule)
    (active : List Booking) (now_utc now_local : Nat) :
    (isAvailableNow schedule active now_utc now_local = AvailabilityStatus.outsideOperatingHours
        ↔ scheduleCovers schedule now_local = false)
  ∧ (isAvailableNow schedule active now_utc now_local = AvailabilityStatus.available
        ↔ (scheduleCovers schedule now_local = true
            ∧ ∀ b ∈ active, ¬(b.start_datetime ≤ now_utc ∧ now_utc < b.end_datetime)))
  ∧ (∀ e, isAvailableNow schedule active now_utc now_local = AvailabilityStatus.bookedUntil e
        → scheduleCovers schedule now_local = true
          ∧ ∃ b ∈ active, (b.start_datetime ≤ now_utc ∧ now_utc < b.end_datetime)
              ∧ b.end_datetime = e)
  ∧ ((scheduleCovers schedule now_local = true
        ∧ ∃ b ∈ active, b.start_datetime ≤ now_utc ∧ now_utc < b.end_datetime)
        → ∃ e, isAvailableNow schedule active now_utc now_local
            = AvailabilityStatus.bookedUntil e) := by
  have hkey := isAvailableNow_eq schedule active now_utc now_local
  by_cases hcov : scheduleCovers schedule now_local = true
  · rw [hkey, if_pos hcov]
    refine ⟨?_, ?_, ?_, ?_⟩
    · exact iff_of_false (scanBookings_ne_outside _ _) (by simp [hcov])
    · rw [scanBookings_available_iff]
      simp [hcov]
    · intro e he
      exact ⟨hcov, scanBookings_bookedUntil _ _ _ he⟩
    · intro h
      exact scanBookings_blocked _ _ h.2
  · have hcov2 : scheduleCovers schedule now_local = false := by
      revert hcov
      cases scheduleCovers schedule now_local <;> simp
    rw [hkey, if_neg hcov]
    refine ⟨by simp [hcov2], by simp [hcov2], ?_, ?_⟩
    · intro e he
      exact absurd he (by simp)
    · intro h
      exact absurd h.1 hcov

/-- C1 witness: a Monday 10:00 local instant inside the 09:00 to 17:00
window with no active bookings is available. -/
theorem availability_now_characterization_witness :
    isAvailableNow (some schedMonday0917) [] 600 600 = AvailabilityStatus.available :=
  (availability_now_characterization (some schedMonday0917) [] 600 600).2.1.mpr
    ⟨by decide, by simp⟩

/-- C2: with an absent schedule the next-available-slot search returns none,
whatever the bookings, duration, buffer, lead time, horizon and increment
are, both for the modelled search itself and for the service wrapper. -/
theorem no_schedule_slot_search_none (bookings : List Booking)
    (duration buffer start_from lead maxDays inc tz : Nat)
    (r : Resource) (active : List Booking) (now_utc tz2 : Nat) :
    get_next_available_slot none bookings duration buffer start_from lead maxDays inc tz = none
  ∧ findNextAvailableSlot r active none now_utc tz2 = none :=
  ⟨rfl, rfl⟩

/-- C3: inserting a booking whose status is rejected, cancelled or completed
anywhere into the raw booking list changes neither the availability-now
answer nor the next-available-slot result; the status filter is applied
inside the availability computation itself. -/
theorem availability_ignores_inactive_bookings (schedule : Option Schedule)
    (l1 l2 : List Booking) (b : Booking)
    (h : b.status = BookingStatus.rejected ∨ b.status = BookingStatus.cancelled
      ∨ b.status = BookingStatus.completed)
    (now_utc now_local : Nat) (r : Resource) (tz : Nat) :
    availabilityPipeline schedule (l1 ++ b :: l2) now_utc now_local r tz
      = availabilityPipeline schedule (l1 ++ l2) now_utc now_local r tz := by
  have hfilter : filterActiveBookings (l1 ++ b :: l2) now_utc
      = filterActiveBookings (l1 ++ l2) now_utc := by
    simp only [filterActiveBookings, List.filter_append, List.filter_cons]
    rcases h with h | h | h <;> simp [h]
  unfold availabilityPipeline
  rw [hfilter]

/-- C3 witness: adding a cancelled booking leaves the whole availability
answer unchanged on a concrete input. -/
theorem availability_ignores_inactive_witness :
    availabilityPipeline (some schedMondayAll) [bCancelled] 100 100 rDefault 0
      = availabilityPipeline (some schedMondayAll) [] 100 100 rDefault 0 :=
  availability_ignores_inactive_bookings (some schedMondayAll) [] [] bCancelled
    (Or.inr (Or.inl rfl)) 100 100 rDefault 0

/-- C5: with an absent schedule the operating-hours check is skipped, so the
point-in-time check with no active bookings reports available, and in
general the answer is exactly the booking scan. -/
theorem no_schedule_point_check_available (now_utc now_local : Nat)
    (active : List Booking) :
    isAvailableNow none [] now_utc now_local = AvailabilityStatus.available
  ∧ isAvailableNow none active now_utc now_local = scanBookings active now_utc :=
  ⟨rfl, rfl⟩

/-- C6: when the booking increment of the resource is absent or zero, 30 is
substituted before the scan, so the slot search behaves exactly as if the
increment were 30; the effective increment is positive for every resource,
so a zero step cannot occur. -/
theorem increment_defaulting (r : Resource)
    (h : r.booking_increment_minutes = none ∨ r.booking_increment_minutes = some 0) :
    incrementOf r = 30
  ∧ (∀ active schedule now_utc tz,
      findNextAvailableSlot r active schedule now_utc tz
        = findNextAvailableSlot { r with booking_increment_minutes := some 30 }
            active schedule now_utc tz)
  ∧ (∀ r2 : Resource, 0 < incrementOf r2) := by
  have hinc : incrementOf r = 30 := by
    rcases h with h | h <;> simp [incrementOf, h]
  refine ⟨hinc, ?_, ?_⟩
  · intro active schedule now_utc tz
    cases schedule with
    | none => rfl
    | some sched =>
      unfold findNextAvailableSlot
      rw [hinc]
      rfl
  · intro r2
    rcases h2 : r2.booking_increment_minutes with _ | m
    · simp [incrementOf, h2]
    · cases m with
      | zero => simp [incrementOf, h2]
      | succ k => simp [incrementOf, h2]

/-- C6 witness: a resource with a zero increment gets effective increment 30
and searches exactly like the same resource with increment 30. -/
theorem increment_defaulting_witness :
    incrementOf rIncZero = 30
  ∧ findNextAvailableSlot rIncZero [] (some schedMonday0917) 0 0
      = findNextAvailableSlot { rIncZero with booking_increment_minutes := some 30 }
          [] (some schedMonday0917) 0 0 :=
  ⟨(increment_defaulting rIncZero (Or.inr rfl)).1,
   (increment_defaulting rIncZero (Or.inr rfl)).2.1 [] (some schedMonday0917) 0 0⟩

/-- C7 counterexample: for a resource whose minimum booking duration is
explicitly 0, the slot search is invoked with duration 60, not with the
minimum booking duration of the resource. -/
theorem slot_duration_counterexample :
    rMinZero.min_booking_minutes = some 0
  ∧ durationOf rMinZero = 60
  ∧ durationOf rMinZero ≠ 0
  ∧ findNextAvailableSlot rMinZero [] (some schedMonday0917) 0 0
      = get_next_available_slot (some schedMonday0917) [] 60 0 0 0 7 30 0 :=
  ⟨rfl, rfl, by decide, rfl⟩

/-- C7 as amended: whenever the minimum booking duration of the resource is
set and nonzero, the slot search is invoked with exactly that duration (the
maximum is never consulted); when it is absent or zero the default 60 is
used instead. -/
theorem slot_duration_from_min (r : Resource) (m : Nat)
    (h : r.min_booking_minutes = some m) (hm : m ≠ 0) :
    durationOf r = m
  ∧ ∀ active sched now_utc tz,
      findNextAvailableSlot r active (some sched) now_utc tz
        = get_next_available_slot (some sched)
            (active.filter (fun b => decide (now_utc < b.end_datetime)))
            m (bufferOf r) now_utc (leadTimeOf r) 7 (incrementOf r) tz := by
  have hd : durationOf r = m := by
    cases m with
    | zero => exact absurd rfl hm
    | succ k => simp [durationOf, h]
  refine ⟨hd, fun active sched now_utc tz => ?_⟩
  unfold findNextAvailableSlot
  rw [hd]

/-- C7 witness: a resource with minimum duration 90 searches with duration
90. -/
theorem slot_duration_from_min_witness :
    durationOf rMin90 = 90 :=
  (slot_duration_from_min rMin90 90 rfl (by decide)).1

/-- C4 counterexample: in a degenerate window whose start equals its end,
the instant whose time of day equals the window start is not covered,
against the claim that the start instant of every window is covered. -/
theorem window_start_coverage_counterexample :
    timeInWindow 540 ⟨540, 540⟩ = false
  ∧ is_time_in_schedule 540 schedDegenerate = false := by decide

/-- C4 as amended: for every nonempty window (start strictly before end) the
containment is half-open, covering exactly the start boundary and excluding
exactly the end boundary; in particular 09:00 parses to minute 540, 17:00 to
minute 1020, and with window 09:00 to 17:00 a Monday 09:00 local instant is
covered while Monday 17:00 is not. -/
theorem window_halfopen_amended (s e : Nat) (h : s < e) :
    timeInWindow s ⟨s, e⟩ = true
  ∧ timeInWindow e ⟨s, e⟩ = false
  ∧ parse_time_string "09:00" = some 540
  ∧ parse_time_string "17:00" = some 1020
  ∧ is_time_in_schedule 540 schedMonday0917 = true
  ∧ is_time_in_schedule 1020 schedMonday0917 = false := by
  refine ⟨?_, ?_, by decide, by decide, by decide, by decide⟩
  · simp only [timeInWindow, decide_eq_true_eq]
    omega
  · simp only [timeInWindow, decide_eq_false_iff_not]
    omega

/-- C4 witness: the half-open rule at the concrete window 540 to 1020. -/
theorem window_halfopen_amended_witness :
    (540 : Nat) < 1020 ∧ timeInWindow 540 ⟨540, 1020⟩ = true :=
  ⟨by decide, (window_halfopen_amended 540 1020 (by decide)).1⟩

/-- C8 counterexample: two overlapping active bookings supplied with the
later start first; the check reports the end of the first booking in list
order (200), not the end of the booking with the earliest start (150). -/
theorem tiebreak_counterexample :
    (bEarly.start_datetime ≤ 100 ∧ 100 < bEarly.end_datetime)
  ∧ (bLate.start_datetime ≤ 100 ∧ 100 < bLate.end_datetime)
  ∧ bEarly.start_datetime < bLate.start_datetime
  ∧ isAvailableNow none [bLate, bEarly] 100 0
      = AvailabilityStatus.bookedUntil bLate.end_datetime
  ∧ AvailabilityStatus.bookedUntil bLate.end_datetime
      ≠ AvailabilityStatus.bookedUntil bEarly.end_datetime := by decide

/-- C8 as amended: the check reports the first overlapping booking in the
order of the supplied list, so when the active list is sorted by ascending
start time the reported blocking booking has minimal start time among all
blocking bookings, and the reported reason is a deterministic function of
the inputs. -/
theorem tiebreak_sorted (schedule : Option Schedule) (active : List Booking)
    (now_utc now_local e : Nat)
    (hs : active.Pairwise (fun a b => a.start_datetime ≤ b.start_datetime))
    (h : isAvailableNow schedule active now_utc now_local = AvailabilityStatus.bookedUntil e) :
    ∃ b ∈ active, (b.start_datetime ≤ now_utc ∧ now_utc < b.end_datetime)
      ∧ b.end_datetime = e
      ∧ ∀ b2 ∈ active, (b2.start_datetime ≤ now_utc ∧ now_utc < b2.end_datetime) →
          b.start_datetime ≤ b2.start_datetime := by
  have hscan : scanBookings active now_utc = AvailabilityStatus.bookedUntil e := by
    rw [isAvailableNow_eq] at h
    by_cases hcov : scheduleCovers schedule now_local = true
    · rwa [if_pos hcov] at h
    · rw [if_neg hcov] at h
      exact absurd h (by simp)
  exact scanBookings_sorted_first active now_utc e hs hscan

/-- C8 amended witness: on the sorted list the reported end 150 comes from
the earliest-starting blocking booking. -/
theorem tiebreak_sorted_witness :
    ∃ b ∈ [bEarly, bLate], (b.start_datetime ≤ 100 ∧ 100 < b.end_datetime)
      ∧ b.end_datetime = 150
      ∧ ∀ b2 ∈ [bEarly, bLate], (b2.start_datetime ≤ 100 ∧ 100 < b2.end_datetime) →
          b.start_datetime ≤ b2.start_datetime :=
  tiebreak_sorted none [bEarly, bLate] 100 0 150 (by decide) (by decide)

/-- C9: the question validation fails exactly when the question, stripped of
surrounding whitespace with None read as empty, is empty or longer than 1000
characters; otherwise it succeeds and yields exactly the stripped question. -/
theorem answer_validation_characterization (question : Option String) :
    ((∃ msg, answerValidate question = Except.error msg)
        ↔ (pyStrip (question.getD "") = "" ∨ (pyStrip (question.getD "")).length > 1000))
  ∧ (¬(pyStrip (question.getD "") = "" ∨ (pyStrip (question.getD "")).length > 1000)
        → answerValidate question = Except.ok (pyStrip (question.getD "")))
  ∧ (∀ s, answerValidate question = Except.ok s → s = pyStrip (question.getD "")) := by
  by_cases h1 : pyStrip (question.getD "") = ""
  · simp [answerValidate, h1]
  · by_cases h2 : (pyStrip (question.getD "")).length > 1000
    · simp [answerValidate, h1, h2]
    · simp [answerValidate, h1, h2]

/-- C9 witness: a padded question passes validation and is returned
stripped. -/
theorem answer_validation_witness :
    answerValidate (some " hi ") = Except.ok (pyStrip ((some " hi ").getD ""))
  ∧ pyStrip ((some " hi ").getD "") = "hi" :=
  ⟨(answer_validation_characterization (some " hi ")).2.1 (by decide), by decide⟩

/-- Loop invariants of the next-free-window computation, proved by induction
over the interval list with the running window start generalized. -/
lemma nawGo_spec (l : List (Nat × Nat)) (ws : Nat)
    (hs : l.Pairwise (fun p q => p.1 ≤ q.1)) :
    ws ≤ (nawGo ws l).1
  ∧ (∀ p ∈ l, ¬(p.1 ≤ (nawGo ws l).1 ∧ (nawGo ws l).1 < p.2))
  ∧ (∀ g, (nawGo ws l).2 = some g →
      (nawGo ws l).1 < g ∧ (∃ p ∈ l, p.1 = g)
        ∧ ∀ p ∈ l, ¬(p.1 < g ∧ (nawGo ws l).1 < p.2)) := by
  induction l generalizing ws with
  | nil => simp [nawGo]
  | cons hd rest ih =>
    obtain ⟨s, e⟩ := hd
    rw [List.pairwise_cons] at hs
    obtain ⟨hhead, hrest⟩ := hs
    by_cases h1 : e ≤ ws
    · have hgo : nawGo ws ((s, e) :: rest) = nawGo ws rest := by
        rw [nawGo, if_pos h1]
      obtain ⟨ih1, ih2, ih3⟩ := ih ws hrest
      rw [hgo]
      refine ⟨ih1, ?_, ?_⟩
      · intro p hp
        rcases List.mem_cons.mp hp with rfl | hp
        · show ¬(s ≤ (nawGo ws rest).1 ∧ (nawGo ws rest).1 < e)
          intro hcon
          omega
        · exact ih2 p hp
      · intro g hg
        obtain ⟨ihg1, ihg2, ihg3⟩ := ih3 g hg
        refine ⟨ihg1, ?_, ?_⟩
        · obtain ⟨p, hp, hpe⟩ := ihg2
          exact ⟨p, List.mem_cons_of_mem _ hp, hpe⟩
        · intro p hp
          rcases List.mem_cons.mp hp with rfl | hp
          · show ¬(s < g ∧ (nawGo ws rest).1 < e)
            intro hcon
            omega
          · exact ihg3 p hp
    · by_cases h2 : s ≤ ws ∧ ws < e
      · have hgo : nawGo ws ((s, e) :: rest) = nawGo e rest := by
          rw [nawGo, if_neg h1, if_pos h2]
        obtain ⟨ih1, ih2, ih3⟩ := ih e hrest
        rw [hgo]
        refine ⟨by omega, ?_, ?_⟩
        · intro p hp
          rcases List.mem_cons.mp hp with rfl | hp
          · show ¬(s ≤ (nawGo e rest).1 ∧ (nawGo e rest).1 < e)
            intro hcon
            omega
          · exact ih2 p hp
        · intro g hg
          obtain ⟨ihg1, ihg2, ihg3⟩ := ih3 g hg
          refine ⟨ihg1, ?_, ?_⟩
          · obtain ⟨p, hp, hpe⟩ := ihg2
            exact ⟨p, List.mem_cons_of_mem _ hp, hpe⟩
          · intro p hp
            rcases List.mem_cons.mp hp with rfl | hp
            · show ¬(s < g ∧ (nawGo e rest).1 < e)
              intro hcon
              omega
            · exact ihg3 p hp
      · by_cases h3 : ws < s
        · have hgo : nawGo ws ((s, e) :: rest) = (ws, some s) := by
            rw [nawGo, if_neg h1, if_neg h2, if_pos h3]
          rw [hgo]
          dsimp only
          refine ⟨Nat.le_refl _, ?_, ?_⟩
          · intro p hp
            rcases List.mem_cons.mp hp with rfl | hp
            · show ¬(s ≤ ws ∧ ws < e)
              intro hcon
              omega
            · intro hcon
              have hle : s ≤ p.1 := hhead p hp
              omega
          · intro g hg
            have hgs : s = g := by injection hg
            refine ⟨hgs ▸ h3, ⟨(s, e), List.mem_cons_self _ _, hgs⟩, ?_⟩
            intro p hp
            rcases List.mem_cons.mp hp with rfl | hp
            · show ¬(s < g ∧ ws < e)
              intro hcon
              omega
            · intro hcon
              have hle : s ≤ p.1 := hhead p hp
              omega
        · exfalso
          exact h2 ⟨by omega, by omega⟩

/-- C10: for interval lists sorted by ascending start, the next-free-window
start is at least now and lies strictly inside no interval; a returned window
end is the start of some listed interval strictly after the window start and
no listed interval overlaps the returned gap; the empty list yields the
window from now onward. -/
theorem next_window_invariants (now : Nat) (intervals : List (Nat × Nat))
    (hs : intervals.Pairwise (fun p q => p.1 ≤ q.1)) :
    now ≤ (next_available_window now intervals).1
  ∧ (∀ p ∈ intervals, ¬(p.1 ≤ (next_available_window now intervals).1
        ∧ (next_available_window now intervals).1 < p.2))
  ∧ (∀ g, (next_available_window now intervals).2 = some g →
      (next_available_window now intervals).1 < g
      ∧ (∃ p ∈ intervals, p.1 = g)
      ∧ ∀ p ∈ intervals, ¬(p.1 < g ∧ (next_available_window now intervals).1 < p.2))
  ∧ next_available_window now [] = (now, none) := by
  cases intervals with
  | nil =>
    refine ⟨Nat.le_refl _, by simp, ?_, rfl⟩
    intro g hg
    exact absurd hg (by simp [next_available_window])
  | cons hd tl =>
    have h := nawGo_spec (hd :: tl) now hs
    exact ⟨h.1, h.2.1, h.2.2, rfl⟩

/-- C10 witness: for intervals `[50, 150)` and `[160, 200)` starting from
now = 100 the returned window starts at 150, which satisfies the lower
bound of the invariant. -/
theorem next_window_invariants_witness :
    100 ≤ (next_available_window 100 [(50, 150), (160, 200)]).1
  ∧ (next_available_window 100 [(50, 150), (160, 200)]).1 = 150 :=
  ⟨(next_window_invariants 100 [(50, 150), (160, 200)] (by decide)).1, by decide⟩

end CampusHub
